import Mathlib

/-!
Shallow embedding of the `silent` Go library (multi-key envelope encryption
with a type-bound crypter registry), covering `MultiKeyCrypter`
(`Encrypt` / `Decrypt` / `EncryptedSize` / `EncryptWriter` / `DecryptReader`)
and the `EncryptedValue` serialization hooks (`MarshalJSON`, `UnmarshalJSON`,
`Scan`).

Byte sequences are modelled as `List Nat` (each element a byte value); the
external authenticated stream-cipher engine (minio/sio) is out of scope of the
repository and is abstracted as a `SioEngine` structure whose contract
(round trip, exact size prediction) is assumed where a property needs it.
-/

/-- writeUint32 from the source: little-endian encoding of a uint32 into 4 bytes
(`byte(value)`, `byte(value >> 8)`, `byte(value >> 16)`, `byte(value >> 24)`). -/
def writeUint32 (value : Nat) : List Nat :=
  [value % 256, value / 2 ^ 8 % 256, value / 2 ^ 16 % 256, value / 2 ^ 24 % 256]

/-- readUint32 from the source: little-endian decoding of 4 bytes into a uint32
(`uint32(b0) | uint32(b1)<<8 | uint32(b2)<<16 | uint32(b3)<<24`); the `% 256`
encodes that in Go each argument has type `byte`. -/
def readUint32 (b0 b1 b2 b3 : Nat) : Nat :=
  b0 % 256 + b1 % 256 * 2 ^ 8 + b2 % 256 * 2 ^ 16 + b3 % 256 * 2 ^ 24

/-- Abstraction of the external minio/sio engine (an out-of-scope collaborator
of the repository): chunked authenticated encryption under a 32-byte key.
`encrypt key plaintext` and `decrypt key ciphertext` return `none` on failure
(engine error / authentication failure); `encryptedSize` returns `none` when
the engine rejects the size (sio errors on sizes above its maximum). -/
structure SioEngine where
  encrypt : List Nat → List Nat → Option (List Nat)
  decrypt : List Nat → List Nat → Option (List Nat)
  encryptedSize : Nat → Option Nat

/-- Contract of the engine assumed by the round-trip property: encrypting a
non-empty plaintext succeeds, produces non-empty ciphertext, and decrypting
that ciphertext under the same key recovers the plaintext. -/
def EngineRoundTrip (e : SioEngine) : Prop :=
  ∀ key p, p ≠ [] →
    ∃ ct, e.encrypt key p = some ct ∧ ct ≠ [] ∧ e.decrypt key ct = some p

/-- Contract of the engine assumed by the size property: whenever encryption
succeeds, `encryptedSize` predicts the ciphertext length exactly. -/
def EngineSizeExact (e : SioEngine) : Prop :=
  ∀ key p ct, e.encrypt key p = some ct → e.encryptedSize p.length = some ct.length

/-- Contract used by the streaming-writer property: encryption always succeeds. -/
def EngineEncTotal (e : SioEngine) : Prop :=
  ∀ key p, ∃ ct, e.encrypt key p = some ct

/-- MultiKeyCrypter from the source: `keys map[uint32][]byte` is modelled as an
association list (duplicates are rejected by `AddKey`, so assoc-list lookup
agrees with the Go map), plus `lastKeyID` and the `Bypass` flag. -/
structure MultiKeyCrypter where
  keys : List (Nat × List Nat)
  lastKeyID : Nat
  Bypass : Bool
deriving DecidableEq

/-- keysLookup models the Go map read `s.keys[keyID]`, which yields nil
(`none`) for an absent id. -/
def keysLookup : List (Nat × List Nat) → Nat → Option (List Nat)
  | [], _ => none
  | (id, key) :: rest, keyID =>
    if id = keyID then some key else keysLookup rest keyID

/-- AddKey from the source. The two `panic` branches (key shorter than 32
bytes, duplicate key id) are modelled as `none`; on success the key is stored
and becomes `lastKeyID`. -/
def MultiKeyCrypter.AddKey (s : MultiKeyCrypter) (keyID : Nat) (key : List Nat) :
    Option MultiKeyCrypter :=
  if key.length < 32 then none
  else if (keysLookup s.keys keyID).isSome then none
  else some { s with keys := (keyID, key) :: s.keys, lastKeyID := keyID }

/-- Well-formedness reached by any crypter that has had at least one `AddKey`
call with a uint32 id: `lastKeyID` is a present key of length at least 32. -/
def MultiKeyCrypter.wf (s : MultiKeyCrypter) : Bool :=
  decide (s.lastKeyID < 2 ^ 32) &&
    match keysLookup s.keys s.lastKeyID with
    | some key => decide (32 ≤ key.length)
    | none => false

/-- Errors surfaced by the decrypt path of the source (`ErrUnsupportedVersion`,
`ErrUnknownKey`, an io error for a truncated key-id header, and any engine
failure). -/
inductive DecryptError where
  | unsupportedVersion
  | unknownKey
  | truncatedHeader
  | engineError
deriving DecidableEq

/-- EncryptedSize from the source: 0 for size 0; `dataSize + 1` in bypass
mode; otherwise `sio.EncryptedSize(dataSize) + 5`. When sio rejects the size
the Go code returns `0` with a nil error (the error is not propagated), which
is modelled by the `none => 0` branch. The Go error result is omitted because
it is `nil` on every path. -/
def MultiKeyCrypter.EncryptedSize (s : MultiKeyCrypter) (engine : SioEngine)
    (dataSize : Nat) : Nat :=
  if dataSize = 0 then 0
  else if s.Bypass then dataSize + 1
  else
    match engine.encryptedSize dataSize with
    | none => 0
    | some res => res + 5

/-- Encrypt from the source, following its straight-line path through
`EncryptWriter` (one `Write` of the whole buffer, then `Close`): empty data
gives the empty envelope; bypass mode emits `'#'` (35) followed by the raw
data; normal mode emits tag `1`, the 4-byte little-endian `lastKeyID`, and the
engine ciphertext of the data under the first 32 bytes of the current key.
The `panic` on a missing current key and any engine failure are `none`. -/
def MultiKeyCrypter.Encrypt (s : MultiKeyCrypter) (engine : SioEngine)
    (data : List Nat) : Option (List Nat) :=
  if data = [] then some []
  else if s.Bypass then some (35 :: data)
  else
    match keysLookup s.keys s.lastKeyID with
    | none => none
    | some key =>
      match engine.encrypt (key.take 32) data with
      | none => none
      | some ct => some (1 :: (writeUint32 s.lastKeyID ++ ct))

/-- Decrypt from the source, following `DecryptReader` and a full drain:
empty input yields empty output; tag `'#'` yields the remaining bytes
verbatim; tag `1` reads a 4-byte little-endian key id (failing on a truncated
header), fails with `unknownKey` for an id not in the ring, returns empty
plaintext when no ciphertext byte follows (the peek special case), and
otherwise hands the remainder to the engine; any other tag is
`unsupportedVersion`. -/
def MultiKeyCrypter.Decrypt (s : MultiKeyCrypter) (engine : SioEngine)
    (data : List Nat) : Except DecryptError (List Nat) :=
  match data with
  | [] => .ok []
  | version :: rest =>
    if version = 35 then .ok rest
    else if version = 1 then
      match rest with
      | b0 :: b1 :: b2 :: b3 :: payload =>
        match keysLookup s.keys (readUint32 b0 b1 b2 b3) with
        | none => .error .unknownKey
        | some key =>
          match payload with
          | [] => .ok []
          | _ :: _ =>
            match engine.decrypt (key.take 32) payload with
            | none => .error .engineError
            | some pt => .ok pt
      | _ => .error .truncatedHeader
    else .error .unsupportedVersion

/-- Operations performed on the writer returned by `EncryptWriter`. -/
inductive WOp where
  | write (p : List Nat)
  | close
deriving DecidableEq

/-- Target of the writer's current `CloseFunc`: the closure installed at
creation (`initial`, which closes the sink if it is an `io.Closer` and then
sets `CloseFunc` to nil), nil (`noop`), or the engine writer's close
(`engine`). The source never resets `CloseFunc` after installing the engine's
close, so the `engine` target persists across repeated closes. -/
inductive CloseTarget where
  | initial
  | noop
  | engine
deriving DecidableEq

/-- Observable state of the `dynamicWriter` returned by `EncryptWriter`, over a
non-closing sink (as used by `Encrypt` with a `bytes.Buffer`):
`dispatched` records whether the first non-empty write has replaced
`WriteFunc`; `engineBuf` holds bytes forwarded to the engine writer but not
yet sealed (the engine's package flushing is folded into its close);
`engineClosed` is the engine writer's internal closed flag (sio tolerates a
double close, which the source relies on — "it's safe to do double close");
`resourceCloses` counts actual closes of the underlying engine resource;
`out` is everything written to the sink. -/
structure EWState where
  dispatched : Bool
  closeTarget : CloseTarget
  engineBuf : List Nat
  engineClosed : Bool
  resourceCloses : Nat
  out : List Nat
deriving DecidableEq

/-- Initial state of a freshly created `EncryptWriter`. -/
def ewInit : EWState :=
  { dispatched := false, closeTarget := .initial, engineBuf := [],
    engineClosed := false, resourceCloses := 0, out := [] }

/-- Single step of the `EncryptWriter` state machine; `none` models a panic
(no key configured) or an engine failure. -/
def ewStep (s : MultiKeyCrypter) (engine : SioEngine) (st : EWState) :
    WOp → Option EWState
  | .write p =>
    if p = [] then some st
    else if st.dispatched then
      if s.Bypass then some { st with out := st.out ++ p }
      else some { st with engineBuf := st.engineBuf ++ p }
    else if s.Bypass then
      some { st with dispatched := true, out := st.out ++ (35 :: p) }
    else
      match keysLookup s.keys s.lastKeyID with
      | none => none
      | some _ =>
        some { st with dispatched := true, closeTarget := .engine,
                       out := st.out ++ (1 :: writeUint32 s.lastKeyID),
                       engineBuf := p }
  | .close =>
    match st.closeTarget with
    | .initial => some { st with closeTarget := .noop }
    | .noop => some st
    | .engine =>
      if st.engineClosed then some st
      else
        match keysLookup s.keys s.lastKeyID with
        | none => none
        | some key =>
          match engine.encrypt (key.take 32) st.engineBuf with
          | none => none
          | some ct =>
            some { st with engineClosed := true,
                           resourceCloses := st.resourceCloses + 1,
                           engineBuf := [], out := st.out ++ ct }

/-- Auxiliary runner of the writer state machine from a given state. -/
def runWriterAux (s : MultiKeyCrypter) (engine : SioEngine) (st : EWState) :
    List WOp → Option EWState
  | [] => some st
  | op :: ops =>
    match ewStep s engine st op with
    | none => none
    | some st2 => runWriterAux s engine st2 ops

/-- Runner of the writer state machine from the freshly created writer. -/
def runWriter (s : MultiKeyCrypter) (engine : SioEngine) (ops : List WOp) :
    Option EWState :=
  runWriterAux s engine ewInit ops

/-- Test of membership in a closed byte interval. -/
def inRange (b lo hi : Nat) : Bool :=
  decide (lo ≤ b ∧ b ≤ hi)

/-- Lower bound accepted for the second byte of a multi-byte UTF-8 sequence,
per first byte (Go `unicode/utf8` accept ranges). -/
def utf8Lo (b : Nat) : Nat :=
  if b = 224 then 160 else if b = 240 then 144 else 128

/-- Upper bound accepted for the second byte of a multi-byte UTF-8 sequence,
per first byte (Go `unicode/utf8` accept ranges). -/
def utf8Hi (b : Nat) : Nat :=
  if b = 237 then 159 else if b = 244 then 143 else 191

/-- utf8Valid models Go `utf8.Valid`: standard UTF-8 validation rejecting
continuation-byte starts, overlong encodings, surrogates and values above
U+10FFFF. -/
def utf8Valid : List Nat → Bool
  | [] => true
  | b :: rest =>
    if b ≤ 127 then utf8Valid rest
    else if 194 ≤ b ∧ b ≤ 223 then
      match rest with
      | b1 :: rest2 => inRange b1 128 191 && utf8Valid rest2
      | [] => false
    else if 224 ≤ b ∧ b ≤ 239 then
      match rest with
      | b1 :: b2 :: rest2 =>
        inRange b1 (utf8Lo b) (utf8Hi b) && inRange b2 128 191 && utf8Valid rest2
      | _ => false
    else if 240 ≤ b ∧ b ≤ 244 then
      match rest with
      | b1 :: b2 :: b3 :: rest2 =>
        inRange b1 (utf8Lo b) (utf8Hi b) && inRange b2 128 191 &&
          inRange b3 128 191 && utf8Valid rest2
      | _ => false
    else false

/-- Lowercase hexadecimal digit, as used by Go's JSON `\u00xx` escapes. -/
def hexDigit (n : Nat) : Nat :=
  if n < 10 then 48 + n else 87 + n

/-- jsonEscape models the body produced by Go `encoding/json` string encoding
with `SetEscapeHTML(false)` on a valid-UTF-8 string (the only way the source
uses it, guarded by `utf8.Valid`): `"` `\` `\n` `\r` `\t` get two-character
escapes, other control bytes get `\u00xx`, U+2028 and U+2029 get their
`\u202x` escapes, and every other byte is copied verbatim. -/
def jsonEscape : List Nat → List Nat
  | [] => []
  | 34 :: rest => 92 :: 34 :: jsonEscape rest
  | 92 :: rest => 92 :: 92 :: jsonEscape rest
  | 10 :: rest => 92 :: 110 :: jsonEscape rest
  | 13 :: rest => 92 :: 114 :: jsonEscape rest
  | 9 :: rest => 92 :: 116 :: jsonEscape rest
  | 226 :: 128 :: 168 :: rest => 92 :: 117 :: 50 :: 48 :: 50 :: 56 :: jsonEscape rest
  | 226 :: 128 :: 169 :: rest => 92 :: 117 :: 50 :: 48 :: 50 :: 57 :: jsonEscape rest
  | b :: rest =>
    if b < 32 then 92 :: 117 :: 48 :: 48 :: hexDigit (b / 16) :: hexDigit (b % 16) :: jsonEscape rest
    else b :: jsonEscape rest

/-- jsonEncodeString models the full Go JSON string literal (quotes included,
trailing newline of `Encoder.Encode` already trimmed as the source does). -/
def jsonEncodeString (s : List Nat) : List Nat :=
  34 :: (jsonEscape s ++ [34])

/-- Character of the standard base64 alphabet at a 6-bit index. -/
def base64Char (n : Nat) : Nat :=
  if n < 26 then 65 + n
  else if n < 52 then 97 + (n - 26)
  else if n < 62 then 48 + (n - 52)
  else if n = 62 then 43
  else 47

/-- base64Encode models Go `base64.StdEncoding` (with `=` padding), which is
what `json.Marshal` applies to a `[]byte`. -/
def base64Encode : List Nat → List Nat
  | b0 :: b1 :: b2 :: rest =>
    let n := b0 % 256 * 2 ^ 16 + b1 % 256 * 2 ^ 8 + b2 % 256
    base64Char (n / 2 ^ 18) :: base64Char (n / 2 ^ 12 % 64) ::
      base64Char (n / 2 ^ 6 % 64) :: base64Char (n % 64) :: base64Encode rest
  | [b0, b1] =>
    let n := b0 % 256 * 2 ^ 16 + b1 % 256 * 2 ^ 8
    [base64Char (n / 2 ^ 18), base64Char (n / 2 ^ 12 % 64),
      base64Char (n / 2 ^ 6 % 64), 61]
  | [b0] =>
    let n := b0 % 256 * 2 ^ 16
    [base64Char (n / 2 ^ 18), base64Char (n / 2 ^ 12 % 64), 61, 61]
  | [] => []

/-- jsonMarshalBytes models Go `json.Marshal` applied to a non-nil `[]byte`:
a quoted base64 string literal. -/
def jsonMarshalBytes (data : List Nat) : List Nat :=
  34 :: (base64Encode data ++ [34])

/-- MarshalJSON from the source (`EncryptedValueFactory.MarshalJSON`). The
crypter registry lookup `getCrypterFor` is modelled by the `registry` argument:
`none` means no crypter is registered for the kind (a panic in Go, modelled as
`none`); the registered crypter's `Encrypt` method is the contained function,
returning `none` on error. An empty value returns the literal `«»` (bytes
34, 34) before any registry lookup; otherwise the value is encrypted, and the
ciphertext is emitted as a `#`-prefixed JSON string when it is valid UTF-8 and
as a base64 string otherwise. -/
def EncryptedValue.MarshalJSON (registry : Option (List Nat → Option (List Nat)))
    (v : List Nat) : Option (List Nat) :=
  if v = [] then some [34, 34]
  else
    match registry with
    | none => none
    | some encrypt =>
      match encrypt v with
      | none => none
      | some encData =>
        if utf8Valid encData then some (jsonEncodeString (35 :: encData))
        else some (jsonMarshalBytes encData)

/-- Abstraction of the two `json.Unmarshal` target shapes used by
`UnmarshalJSON` (the JSON codec is an external collaborator):
`unmarshalString` decodes a JSON literal into a string's bytes,
`unmarshalBytes` decodes a JSON literal into a `[]byte` via base64; both are
`none` on a decode error. -/
structure JsonCodec where
  unmarshalString : List Nat → Option (List Nat)
  unmarshalBytes : List Nat → Option (List Nat)

/-- Errors returned by `UnmarshalJSON`: a JSON decode failure or a decrypt
failure carrying the crypter's error. -/
inductive UnmarshalError where
  | jsonError
  | decryptFailed (e : DecryptError)
deriving DecidableEq

/-- Byte content of the two-character JSON literal for the empty string. -/
def emptyStringLit : List Nat := [34, 34]

/-- Byte content of the JSON literal `null`. -/
def nullLit : List Nat := [110, 117, 108, 108]

/-- UnmarshalJSON from the source. The bound crypter's `Decrypt` is modelled
as a function returning the Go pair `([]byte, error)`; the source performs
`*v, err = crypter.Decrypt(encData)` as its last step, so the result value is
assigned from the decrypt result even when the error is non-nil. The first
result is the final receiver content, the second the returned error. -/
def EncryptedValue.UnmarshalJSON (codec : JsonCodec)
    (decrypt : List Nat → List Nat × Option DecryptError)
    (v data : List Nat) : List Nat × Option UnmarshalError :=
  if data = emptyStringLit ∨ data = nullLit then ([], none)
  else
    let encData? :=
      if 2 ≤ data.length ∧ data.get? 1 = some 35 then
        (codec.unmarshalString data).map (fun target => target.drop 1)
      else codec.unmarshalBytes data
    match encData? with
    | none => (v, some .jsonError)
    | some encData =>
      match decrypt encData with
      | (res, some e) => (res, some (.decryptFailed e))
      | (res, none) => (res, none)

/-- Values a SQL driver can hand to `Scan`: nil, a byte slice, a string, or
anything else. -/
inductive ScanValue where
  | nil
  | bytes (b : List Nat)
  | str (t : List Nat)
  | other
deriving DecidableEq

/-- Errors returned by `Scan`: a decrypt failure carrying the crypter's error,
or the type-mismatch error of the default case. -/
inductive ScanError where
  | decryptFailed (e : DecryptError)
  | typeMismatch
deriving DecidableEq

/-- Scan from the source. Same conventions as `UnmarshalJSON`; note that in
the `[]byte` and `string` cases the source returns the decrypt error before
assigning `*v`, so on failure the receiver keeps its prior content. -/
def EncryptedValue.Scan (decrypt : List Nat → List Nat × Option DecryptError)
    (v : List Nat) (value : ScanValue) : List Nat × Option ScanError :=
  match value with
  | .nil => ([], none)
  | .bytes b =>
    if b = [] then ([], none)
    else
      match decrypt b with
      | (_, some e) => (v, some (.decryptFailed e))
      | (res, none) => (res, none)
  | .str t =>
    if t = [] then ([], none)
    else
      match decrypt t with
      | (_, some e) => (v, some (.decryptFailed e))
      | (res, none) => (res, none)
  | .other => (v, some .typeMismatch)

/-- Concrete 32-byte key used to instantiate the properties. -/
def testKey : List Nat := List.replicate 32 7

/-- Freshly constructed crypter with no keys (normal mode). -/
def emptyCrypter : MultiKeyCrypter :=
  { keys := [], lastKeyID := 0, Bypass := false }

/-- Crypter holding the single key id 1 (normal mode), as built by
`AddKey 1 testKey` on a fresh crypter. -/
def testCrypter : MultiKeyCrypter :=
  { keys := [(1, testKey)], lastKeyID := 1, Bypass := false }

/-- Crypter in bypass mode with no keys, as in the source's bypass test. -/
def bypassCrypter : MultiKeyCrypter :=
  { keys := [], lastKeyID := 0, Bypass := true }

/-- Concrete engine instance satisfying the assumed engine contracts, used to
instantiate the properties at concrete inputs: ciphertext is the plaintext
prefixed with a 0 byte. -/
def testEngine : SioEngine where
  encrypt := fun _ p => some (0 :: p)
  decrypt := fun _ c =>
    match c with
    | 0 :: p => some p
    | _ => none
  encryptedSize := fun n => some (n + 1)

theorem readUint32_writeUint32 (v : Nat) (hv : v < 2 ^ 32) :
    readUint32 (writeUint32 v)[0]! (writeUint32 v)[1]! (writeUint32 v)[2]!
      (writeUint32 v)[3]! = v := by
  simp only [writeUint32, readUint32]
  simp only [List.getElem!_cons_zero, List.getElem!_cons_succ]
  omega

theorem testEngine_roundTrip : EngineRoundTrip testEngine := by
  intro key p _
  exact ⟨0 :: p, rfl, by simp, rfl⟩

theorem testEngine_sizeExact : EngineSizeExact testEngine := by
  intro key p ct h
  simp only [testEngine] at h
  cases h
  rfl

theorem testEngine_encTotal : EngineEncTotal testEngine :=
  fun _ p => ⟨0 :: p, rfl⟩

theorem wf_iff (s : MultiKeyCrypter) :
    s.wf = true ↔
      s.lastKeyID < 2 ^ 32 ∧
        ∃ key, keysLookup s.keys s.lastKeyID = some key ∧ 32 ≤ key.length := by
  unfold MultiKeyCrypter.wf
  cases h : keysLookup s.keys s.lastKeyID <;> simp [h]

/-- C5: in every mode, `Encrypt` of the empty sequence returns the empty
envelope with no error and `Decrypt` of the empty input returns the empty
value with no error; since this holds for every key ring and every engine,
neither call consults the engine or the key ring. -/
theorem c5_empty_idempotence (s : MultiKeyCrypter) (engine : SioEngine) :
    s.Encrypt engine [] = some [] ∧ s.Decrypt engine [] = Except.ok [] := by
  exact ⟨by simp [MultiKeyCrypter.Encrypt], rfl⟩

/-- C6: a bypass-mode crypter's `Encrypt` of a non-empty plaintext returns
exactly the byte `'#'` (35) followed by the plaintext unchanged. -/
theorem c6_bypass_encrypt (s : MultiKeyCrypter) (engine : SioEngine)
    (p : List Nat) (hb : s.Bypass = true) (hp : p ≠ []) :
    s.Encrypt engine p = some (35 :: p) := by
  simp [MultiKeyCrypter.Encrypt, hp, hb]

theorem c6_bypass_encrypt_witness :
    bypassCrypter.Bypass = true ∧
      ([72, 101, 108, 108, 111, 32, 119, 111, 114, 108, 100, 33] : List Nat) ≠ [] ∧
      bypassCrypter.Encrypt testEngine
          [72, 101, 108, 108, 111, 32, 119, 111, 114, 108, 100, 33] =
        some [35, 72, 101, 108, 108, 111, 32, 119, 111, 114, 108, 100, 33] :=
  ⟨rfl, by decide,
    c6_bypass_encrypt bypassCrypter testEngine
      [72, 101, 108, 108, 111, 32, 119, 111, 114, 108, 100, 33] rfl (by decide)⟩

/-- C4: for an input whose first byte is tag 1 and whose following 4 bytes
decode little-endian to a key id absent from the ring, `Decrypt` fails with
the unknown-key error (`ErrUnknownKey`) and never returns plaintext. -/
theorem c4_unknown_key_rejected (s : MultiKeyCrypter) (engine : SioEngine)
    (b0 b1 b2 b3 : Nat) (rest : List Nat)
    (h : keysLookup s.keys (readUint32 b0 b1 b2 b3) = none) :
    s.Decrypt engine (1 :: b0 :: b1 :: b2 :: b3 :: rest) =
      Except.error DecryptError.unknownKey := by
  simp [MultiKeyCrypter.Decrypt, h]

theorem c4_unknown_key_rejected_witness :
    keysLookup testCrypter.keys (readUint32 2 0 0 0) = none ∧
      testCrypter.Decrypt testEngine [1, 2, 0, 0, 0, 9, 9] =
        Except.error DecryptError.unknownKey :=
  ⟨by decide, c4_unknown_key_rejected testCrypter testEngine 2 0 0 0 [9, 9] (by decide)⟩

/-- C8: for an input consisting of tag 1 and 4 bytes encoding a key id present
in the ring, with no further bytes, `Decrypt` returns the empty plaintext with
no error; since this holds for every engine, the engine's decrypt reader is
not invoked. -/
theorem c8_empty_payload_envelope (s : MultiKeyCrypter) (engine : SioEngine)
    (b0 b1 b2 b3 : Nat) (key : List Nat)
    (h : keysLookup s.keys (readUint32 b0 b1 b2 b3) = some key) :
    s.Decrypt engine [1, b0, b1, b2, b3] = Except.ok [] := by
  simp [MultiKeyCrypter.Decrypt, h]

theorem c8_empty_payload_envelope_witness :
    keysLookup testCrypter.keys (readUint32 1 0 0 0) = some testKey ∧
      testCrypter.Decrypt testEngine [1, 1, 0, 0, 0] = Except.ok [] :=
  ⟨by decide, c8_empty_payload_envelope testCrypter testEngine 1 0 0 0 testKey (by decide)⟩

theorem readUint32_writeUint32_list (v : Nat) (hv : v < 2 ^ 32) :
    readUint32 (v % 256) (v / 256 % 256) (v / 65536 % 256) (v / 16777216 % 256) = v := by
  simp only [readUint32]
  omega

theorem encrypt_bypass (s : MultiKeyCrypter) (engine : SioEngine) (p : List Nat)
    (hp : p ≠ []) (hb : s.Bypass = true) :
    s.Encrypt engine p = some (35 :: p) := by
  simp [MultiKeyCrypter.Encrypt, hp, hb]

theorem encrypt_normal_inv (s : MultiKeyCrypter) (engine : SioEngine)
    (p ct : List Nat) (hp : p ≠ []) (hb : s.Bypass = false)
    (henc : s.Encrypt engine p = some ct) :
    ∃ key ct2, keysLookup s.keys s.lastKeyID = some key ∧
      engine.encrypt (key.take 32) p = some ct2 ∧
      ct = 1 :: (writeUint32 s.lastKeyID ++ ct2) := by
  unfold MultiKeyCrypter.Encrypt at henc
  rw [if_neg hp, hb] at henc
  simp only [Bool.false_eq_true, if_false] at henc
  split at henc
  next => cases henc
  next key hk =>
    split at henc
    next => cases henc
    next ct2 he =>
      cases henc
      exact ⟨key, ct2, hk, he, rfl⟩

theorem decrypt_envelope (s : MultiKeyCrypter) (engine : SioEngine) (key : List Nat)
    (hid : s.lastKeyID < 2 ^ 32) (hk : keysLookup s.keys s.lastKeyID = some key)
    (c : Nat) (ct2 pt : List Nat)
    (hdec : engine.decrypt (key.take 32) (c :: ct2) = some pt) :
    s.Decrypt engine (1 :: (writeUint32 s.lastKeyID ++ (c :: ct2))) = Except.ok pt := by
  simp only [writeUint32, List.cons_append, List.nil_append]
  simp [MultiKeyCrypter.Decrypt, readUint32_writeUint32_list s.lastKeyID hid, hk, hdec]

/-- C1: for every plaintext (including the empty one) and every crypter with
at least one key, in both modes, decrypting the encryption gives back the
plaintext with no error, assuming the engine's round-trip contract. -/
theorem c1_round_trip (s : MultiKeyCrypter) (engine : SioEngine) (p : List Nat)
    (hwf : s.wf = true) (hrt : EngineRoundTrip engine) :
    ∃ ct, s.Encrypt engine p = some ct ∧ s.Decrypt engine ct = Except.ok p := by
  rcases (wf_iff s).mp hwf with ⟨hid, key, hk, -⟩
  by_cases hp : p = []
  · subst hp
    exact ⟨[], by simp [MultiKeyCrypter.Encrypt], rfl⟩
  by_cases hb : s.Bypass = true
  · exact ⟨35 :: p, encrypt_bypass s engine p hp hb, by simp [MultiKeyCrypter.Decrypt]⟩
  · rcases hrt (key.take 32) p hp with ⟨ct, henc, hne, hdec⟩
    refine ⟨1 :: (writeUint32 s.lastKeyID ++ ct), ?_, ?_⟩
    · simp [MultiKeyCrypter.Encrypt, hp, hb, hk, henc]
    · rcases ct with - | ⟨c, ct2⟩
      · exact absurd rfl hne
      · exact decrypt_envelope s engine key hid hk c ct2 p hdec

theorem c1_round_trip_witness :
    testCrypter.wf = true ∧
      ∃ ct, testCrypter.Encrypt testEngine [72, 105] = some ct ∧
        testCrypter.Decrypt testEngine ct = Except.ok [72, 105] :=
  ⟨by decide, c1_round_trip testCrypter testEngine [72, 105] (by decide) testEngine_roundTrip⟩

/-- C2: whenever `Encrypt` succeeds, the envelope length equals
`EncryptedSize` of the plaintext length (assuming the engine predicts its own
size exactly); in particular `EncryptedSize` is 0 at size 0, size + 1 in
bypass mode, and the engine's encrypted size plus 5 in normal mode. -/
theorem c2_size_contract (s : MultiKeyCrypter) (engine : SioEngine)
    (p ct : List Nat) (hsz : EngineSizeExact engine)
    (henc : s.Encrypt engine p = some ct) :
    ct.length = s.EncryptedSize engine p.length
    ∧ s.EncryptedSize engine 0 = 0
    ∧ (∀ n, 0 < n → s.Bypass = true → s.EncryptedSize engine n = n + 1)
    ∧ (∀ n m, 0 < n → s.Bypass = false → engine.encryptedSize n = some m →
        s.EncryptedSize engine n = m + 5) := by
  refine ⟨?_, by simp [MultiKeyCrypter.EncryptedSize], ?_, ?_⟩
  · by_cases hp : p = []
    · subst hp
      simp only [MultiKeyCrypter.Encrypt, if_pos] at henc
      cases henc
      simp [MultiKeyCrypter.EncryptedSize]
    · by_cases hb : s.Bypass = true
      · rw [encrypt_bypass s engine p hp hb] at henc
        cases henc
        simp [MultiKeyCrypter.EncryptedSize, hb, hp]
      · rcases encrypt_normal_inv s engine p ct hp (Bool.not_eq_true _ ▸ hb) henc with
          ⟨key, ct2, hk, he, rfl⟩
        have hlen := hsz (key.take 32) p ct2 he
        simp [MultiKeyCrypter.EncryptedSize, hp, Bool.not_eq_true _ ▸ hb, hlen,
          writeUint32]
  · intro n hn hb
    simp [MultiKeyCrypter.EncryptedSize, Nat.pos_iff_ne_zero.mp hn, hb]
  · intro n m hn hb hs
    simp [MultiKeyCrypter.EncryptedSize, Nat.pos_iff_ne_zero.mp hn, hb, hs]

theorem c2_size_contract_witness :
    testCrypter.Encrypt testEngine [72, 105] = some [1, 1, 0, 0, 0, 0, 72, 105] ∧
      ([1, 1, 0, 0, 0, 0, 72, 105] : List Nat).length =
        testCrypter.EncryptedSize testEngine ([72, 105] : List Nat).length :=
  ⟨by decide,
    (c2_size_contract testCrypter testEngine [72, 105] [1, 1, 0, 0, 0, 0, 72, 105]
      testEngine_sizeExact (by decide)).1⟩

/-- C3: in normal mode, the envelope produced for a non-empty plaintext by a
crypter whose most recently added key has id `keyID` is the tag byte 1,
followed by the 4-byte little-endian encoding of `keyID`, followed by the
engine ciphertext of the plaintext under the first 32 bytes of that key. -/
theorem c3_envelope_layout (s0 s : MultiKeyCrypter) (engine : SioEngine)
    (keyID : Nat) (key p ct : List Nat)
    (hadd : s0.AddKey keyID key = some s) (hb : s0.Bypass = false)
    (hp : p ≠ []) (he : engine.encrypt (key.take 32) p = some ct) :
    s.Encrypt engine p = some (1 :: (writeUint32 keyID ++ ct)) := by
  unfold MultiKeyCrypter.AddKey at hadd
  split at hadd
  · cases hadd
  split at hadd
  · cases hadd
  cases hadd
  simp [MultiKeyCrypter.Encrypt, hp, hb, keysLookup, he]

theorem c3_envelope_layout_witness :
    emptyCrypter.AddKey 1 testKey = some testCrypter ∧
      testCrypter.Encrypt testEngine [72] = some (1 :: (writeUint32 1 ++ [0, 72])) :=
  ⟨by decide,
    c3_envelope_layout emptyCrypter testCrypter testEngine 1 testKey [72] [0, 72]
      (by decide) rfl (by decide) (by decide)⟩

theorem base64Char_ne (n : Nat) : base64Char n ≠ 35 := by
  unfold base64Char
  repeat' split
  all_goals omega

theorem base64Encode_no_hash (l : List Nat) : 35 ∉ base64Encode l := by
  induction l using base64Encode.induct with
  | case1 b0 b1 b2 rest ih =>
    simp only [base64Encode, List.mem_cons]
    push_neg
    exact ⟨(base64Char_ne _).symm, (base64Char_ne _).symm, (base64Char_ne _).symm,
      (base64Char_ne _).symm, ih⟩
  | case2 b0 b1 =>
    simp only [base64Encode, List.mem_cons]
    push_neg
    refine ⟨(base64Char_ne _).symm, (base64Char_ne _).symm, (base64Char_ne _).symm, ?_⟩
    simp
  | case3 b0 =>
    simp only [base64Encode, List.mem_cons]
    push_neg
    refine ⟨(base64Char_ne _).symm, (base64Char_ne _).symm, ?_⟩
    simp
  | case4 => simp [base64Encode]

/-- C7: `MarshalJSON` of the empty value is the two-character literal of two
quote bytes, for every registry state including an empty one (so the registry
is not consulted); for a non-empty value whose ciphertext is valid UTF-8 it is
the JSON string literal whose content is the `'#'` marker followed by the
ciphertext; for a non-empty value whose ciphertext is not valid UTF-8 it is
the base64 JSON string literal, which contains no `'#'` byte at all. -/
theorem c7_marshal_json_forms (registry : Option (List Nat → Option (List Nat)))
    (encrypt : List Nat → Option (List Nat)) (v ct : List Nat)
    (hv : v ≠ []) (henc : encrypt v = some ct) :
    EncryptedValue.MarshalJSON registry [] = some [34, 34]
    ∧ (utf8Valid ct = true →
        EncryptedValue.MarshalJSON (some encrypt) v =
          some (jsonEncodeString (35 :: ct)))
    ∧ (utf8Valid ct = false →
        EncryptedValue.MarshalJSON (some encrypt) v = some (jsonMarshalBytes ct)
        ∧ 35 ∉ jsonMarshalBytes ct) := by
  refine ⟨by simp [EncryptedValue.MarshalJSON], ?_, ?_⟩
  · intro hu
    simp [EncryptedValue.MarshalJSON, hv, henc, hu]
  · intro hu
    refine ⟨by simp [EncryptedValue.MarshalJSON, hv, henc, hu], ?_⟩
    simp only [jsonMarshalBytes, List.mem_cons, List.mem_append]
    push_neg
    exact ⟨by omega, fun h => absurd h (base64Encode_no_hash ct), by simp⟩

theorem c7_marshal_json_forms_witness :
    ([5] : List Nat) ≠ [] ∧ (fun _ => some [255]) ([5] : List Nat) = some [255] ∧
      EncryptedValue.MarshalJSON none [] = some [34, 34] ∧
      (utf8Valid [255] = false →
        EncryptedValue.MarshalJSON (some (fun _ => some [255])) [5] =
            some (jsonMarshalBytes [255])
          ∧ 35 ∉ jsonMarshalBytes [255]) :=
  ⟨by decide, rfl,
    (c7_marshal_json_forms none (fun _ => some [255]) [5] [255] (by decide) rfl).1,
    (c7_marshal_json_forms none (fun _ => some [255]) [5] [255] (by decide) rfl).2.2⟩

/-- C10: when the bound crypter's decrypt fails on a non-empty byte-slice or
string input, `Scan` returns the decrypt error and leaves the receiver's
content unchanged, while `UnmarshalJSON` overwrites the receiver with the
decrypt result (nil for `MultiKeyCrypter`) before returning the error. -/
theorem c10_scan_atomicity (codec : JsonCodec)
    (decrypt : List Nat → List Nat × Option DecryptError)
    (v b data r : List Nat) (e : DecryptError)
    (hb : b ≠ []) (hfail : decrypt b = (r, some e))
    (hdata : ¬(data = emptyStringLit ∨ data = nullLit))
    (hmark : ¬(2 ≤ data.length ∧ data.get? 1 = some 35))
    (hparse : codec.unmarshalBytes data = some b) :
    EncryptedValue.Scan decrypt v (ScanValue.bytes b) =
        (v, some (ScanError.decryptFailed e))
    ∧ EncryptedValue.Scan decrypt v (ScanValue.str b) =
        (v, some (ScanError.decryptFailed e))
    ∧ EncryptedValue.UnmarshalJSON codec decrypt v data =
        (r, some (UnmarshalError.decryptFailed e)) := by
  refine ⟨?_, ?_, ?_⟩
  · simp [EncryptedValue.Scan, hb, hfail]
  · simp [EncryptedValue.Scan, hb, hfail]
  · have hmark2 : ¬(2 ≤ data.length ∧ data[1]? = some 35) := by
      simpa [List.get?_eq_getElem?] using hmark
    simp [EncryptedValue.UnmarshalJSON, hdata, hmark2, hparse, hfail]

theorem c10_scan_atomicity_witness :
    (fun _ => (([] : List Nat), some DecryptError.engineError)) ([5] : List Nat) =
        ([], some DecryptError.engineError) ∧
      EncryptedValue.Scan (fun _ => ([], some DecryptError.engineError)) [9]
          (ScanValue.bytes [5]) = ([9], some (ScanError.decryptFailed .engineError)) ∧
      EncryptedValue.Scan (fun _ => ([], some DecryptError.engineError)) [9]
          (ScanValue.str [5]) = ([9], some (ScanError.decryptFailed .engineError)) ∧
      EncryptedValue.UnmarshalJSON ⟨fun _ => none, fun _ => some [5]⟩
          (fun _ => ([], some DecryptError.engineError)) [9] [34, 65, 65, 34] =
        ([], some (UnmarshalError.decryptFailed .engineError)) :=
  ⟨rfl,
    (c10_scan_atomicity ⟨fun _ => none, fun _ => some [5]⟩
      (fun _ => ([], some DecryptError.engineError)) [9] [5] [34, 65, 65, 34] []
      DecryptError.engineError (by decide) rfl (by decide) (by decide) rfl).1,
    (c10_scan_atomicity ⟨fun _ => none, fun _ => some [5]⟩
      (fun _ => ([], some DecryptError.engineError)) [9] [5] [34, 65, 65, 34] []
      DecryptError.engineError (by decide) rfl (by decide) (by decide) rfl).2.1,
    (c10_scan_atomicity ⟨fun _ => none, fun _ => some [5]⟩
      (fun _ => ([], some DecryptError.engineError)) [9] [5] [34, 65, 65, 34] []
      DecryptError.engineError (by decide) rfl (by decide) (by decide) rfl).2.2⟩

theorem runWriterAux_close_fixpoint (s : MultiKeyCrypter) (engine : SioEngine)
    (st : EWState) (h : ewStep s engine st WOp.close = some st) (n : Nat) :
    runWriterAux s engine st (List.replicate n WOp.close) = some st := by
  induction n with
  | zero => rfl
  | succ n ih => simp [List.replicate_succ, runWriterAux, h, ih]

/-- C9: in normal mode with a configured key, running the `EncryptWriter`
state machine with one non-empty write followed by any positive number of
closes closes the underlying engine resource exactly once (never twice, since
the engine's close is internally idempotent and the first close flips its
closed flag); and any number of closes before any write produces zero output
bytes and never touches the engine resource. -/
theorem c9_close_idempotent (s : MultiKeyCrypter) (engine : SioEngine)
    (hwf : s.wf = true) (hb : s.Bypass = false) (htot : EngineEncTotal engine)
    (p : List Nat) (hp : p ≠ []) (n : Nat) :
    (∃ st, runWriter s engine (WOp.write p :: List.replicate (n + 1) WOp.close) =
        some st ∧ st.resourceCloses = 1)
    ∧ (∃ st0, runWriter s engine (List.replicate n WOp.close) = some st0
        ∧ st0.out = [] ∧ st0.resourceCloses = 0) := by
  rcases (wf_iff s).mp hwf with ⟨-, key, hk, -⟩
  rcases htot (key.take 32) p with ⟨ct, hct⟩
  constructor
  · refine ⟨⟨true, CloseTarget.engine, [], true, 1,
      (1 :: writeUint32 s.lastKeyID) ++ ct⟩, ?_, rfl⟩
    have h1 : ewStep s engine ewInit (WOp.write p) =
        some ⟨true, CloseTarget.engine, p, false, 0, 1 :: writeUint32 s.lastKeyID⟩ := by
      simp [ewStep, ewInit, hp, hb, hk]
    have h2 : ewStep s engine
        ⟨true, CloseTarget.engine, p, false, 0, 1 :: writeUint32 s.lastKeyID⟩
        WOp.close =
        some ⟨true, CloseTarget.engine, [], true, 1,
          (1 :: writeUint32 s.lastKeyID) ++ ct⟩ := by
      simp [ewStep, hk, hct]
    have h3 : ewStep s engine
        ⟨true, CloseTarget.engine, [], true, 1, (1 :: writeUint32 s.lastKeyID) ++ ct⟩
        WOp.close =
        some ⟨true, CloseTarget.engine, [], true, 1,
          (1 :: writeUint32 s.lastKeyID) ++ ct⟩ := by
      simp [ewStep]
    simp only [runWriter, List.replicate_succ, runWriterAux, h1, h2]
    exact runWriterAux_close_fixpoint s engine _ h3 n
  · rcases n with - | n
    · exact ⟨ewInit, rfl, rfl, rfl⟩
    · refine ⟨⟨false, CloseTarget.noop, [], false, 0, []⟩, ?_, rfl, rfl⟩
      have h1 : ewStep s engine ewInit WOp.close =
          some ⟨false, CloseTarget.noop, [], false, 0, []⟩ := by
        simp [ewStep, ewInit]
      have h2 : ewStep s engine ⟨false, CloseTarget.noop, [], false, 0, []⟩
          WOp.close = some ⟨false, CloseTarget.noop, [], false, 0, []⟩ := by
        simp [ewStep]
      simp only [runWriter, List.replicate_succ, runWriterAux, h1]
      exact runWriterAux_close_fixpoint s engine _ h2 n

theorem c9_close_idempotent_witness :
    testCrypter.wf = true ∧ testCrypter.Bypass = false ∧
      ((∃ st, runWriter testCrypter testEngine
          (WOp.write [72] :: List.replicate 2 WOp.close) = some st
          ∧ st.resourceCloses = 1)
        ∧ (∃ st0, runWriter testCrypter testEngine (List.replicate 1 WOp.close) =
            some st0 ∧ st0.out = [] ∧ st0.resourceCloses = 0)) :=
  ⟨by decide, rfl,
    c9_close_idempotent testCrypter testEngine (by decide) rfl testEngine_encTotal
      [72] (by decide) 1⟩
